import Mathlib

/-!
Verification development for the Market-Monitor ingestion pipeline.

The definitions below are a shallow embedding of the server side of the
repository: the JavaScript value model needed by the source adapters
(server/routes.ts in its timeout-hardened revision), the storage layer
(server/storage.ts, class DatabaseStorage), and the refresh cycle
(refreshAllMarkets).  Machine numbers coming from JSON payloads are
modelled as rationals (JSON numeric literals are finite decimals, so every
number reaching the adapters has a terminating decimal expansion); the
NaN and infinity values of JavaScript are explicit constructors.  Times
are epoch milliseconds as integers; Date field arithmetic of the source
(setMinutes, setHours) is modelled as epoch-millisecond arithmetic.
-/

/-- A JavaScript number: finite (modelled as a rational), NaN, or a signed
infinity. -/
inductive JSNum where
  | finite (q : Rat)
  | nan
  | inf (pos : Bool)
deriving DecidableEq, Repr

/-- A JavaScript value as the adapters see them after response.json():
null, undefined (the result of a missing field), booleans, numbers,
strings, arrays and plain objects. -/
inductive JSVal where
  | null
  | undefined
  | bool (b : Bool)
  | num (n : JSNum)
  | str (s : String)
  | arr (xs : List JSVal)
  | obj (fields : List (String × JSVal))
deriving Repr

namespace JSVal

/-- JavaScript truthiness: null, undefined, false, 0, NaN and the empty
string are falsy; everything else (objects and arrays included) is truthy. -/
def truthy : JSVal → Bool
  | .null => false
  | .undefined => false
  | .bool b => b
  | .num (.finite q) => decide (q ≠ 0)
  | .num .nan => false
  | .num (.inf _) => true
  | .str s => decide (s ≠ "")
  | .arr _ => true
  | .obj _ => true

/-- Property access m.key.  On an object it is the bound value (undefined
when the key is absent); on any other value it is modelled as undefined.
(In JavaScript, access on null or undefined throws; in the adapters every
such throw is caught by the surrounding try and yields the empty result,
so the total model agrees with the source on all observable outputs of
well-formed payloads.) -/
def getField (v : JSVal) (key : String) : JSVal :=
  match v with
  | .obj fields =>
    match fields.lookup key with
    | some w => w
    | none => .undefined
  | _ => .undefined

/-- The JavaScript short-circuit a || b: the left value when it is truthy,
otherwise the right value. -/
def jsOr (a b : JSVal) : JSVal :=
  if truthy a then a else b

end JSVal

/-! ## String primitives (slice and trim of JavaScript, on code points) -/

/-- The first n characters of a character list. -/
def takeChars : Nat → List Char → List Char
  | 0, _ => []
  | _, [] => []
  | n + 1, c :: cs => c :: takeChars n cs

/-- s.slice(0, n): the first n characters of the string. -/
def strTake (s : String) (n : Nat) : String :=
  ⟨takeChars n s.data⟩

/-- s.trim(): the string without leading and trailing whitespace. -/
def strTrim (s : String) : String :=
  ⟨((s.data.dropWhile Char.isWhitespace).reverse.dropWhile Char.isWhitespace).reverse⟩

/-! ## Numeric parsing (parseFloat, Number) -/

/-- Digits of a decimal literal folded into a natural number. -/
def digitsToNat (ds : List Char) : Nat :=
  ds.foldl (fun acc c => acc * 10 + (c.toNat - 48)) 0

/-- An optional leading sign; returns whether the value is negated and the
remaining characters. -/
def parseSign : List Char → Bool × List Char
  | '-' :: cs => (true, cs)
  | '+' :: cs => (false, cs)
  | cs => (false, cs)

/-- An optional exponent part e[+-]?digits; when there is no well-formed
exponent here, nothing is consumed (parseFloat takes the longest valid
prefix, so "1e" parses as 1). -/
def parseExponentPart (cs : List Char) : Int × List Char :=
  match cs with
  | c :: rest =>
    if c = 'e' ∨ c = 'E' then
      let (neg, rest2) := parseSign rest
      let ds := rest2.takeWhile Char.isDigit
      if ds.isEmpty then (0, cs)
      else
        let e : Int := (digitsToNat ds : Int)
        (if neg then -e else e, rest2.dropWhile Char.isDigit)
    else (0, cs)
  | [] => (0, [])

/-- The rational value digits * 10 ^ (e - fracLen) of a decimal literal
whose digits (integer and fractional together) are num, with fracLen
digits after the point and exponent e. -/
def decimalValue (num : Nat) (fracLen : Nat) (e : Int) : Rat :=
  if 0 ≤ e then mkRat ((num : Int) * (10 : Int) ^ e.toNat) ((10 : Nat) ^ fracLen)
  else mkRat (num : Int) ((10 : Nat) ^ (fracLen + (-e).toNat))

/-- The longest unsigned decimal-literal prefix digits[.digits][exp]:
its rational value and the unconsumed rest, or none when no digit is
present. -/
def parseDecimalPrefix (cs : List Char) : Option (Rat × List Char) :=
  let intDs := cs.takeWhile Char.isDigit
  let rest1 := cs.dropWhile Char.isDigit
  let (fracDs, rest2) :=
    match rest1 with
    | '.' :: cs2 => (cs2.takeWhile Char.isDigit, cs2.dropWhile Char.isDigit)
    | _ => (([] : List Char), rest1)
  if intDs.isEmpty ∧ fracDs.isEmpty then none
  else
    let (e, rest3) := parseExponentPart rest2
    some (decimalValue (digitsToNat (intDs ++ fracDs)) fracDs.length e, rest3)

/-- JavaScript parseFloat: skip leading whitespace, optional sign, then the
longest decimal-literal or Infinity prefix; NaN when no digits are found. -/
def parseFloat (s : String) : JSNum :=
  let cs := s.data.dropWhile Char.isWhitespace
  let (neg, cs1) := parseSign cs
  if "Infinity".data.isPrefixOf cs1 then .inf (!neg)
  else
    match parseDecimalPrefix cs1 with
    | some (q, _) => .finite (if neg then -q else q)
    | none => .nan

/-- JavaScript Number() applied to a string: trimmed, the empty string is 0,
otherwise the whole string must be a decimal literal or Infinity (the
hexadecimal, octal and binary literal forms are not modelled). -/
def jsStringToNumber (s : String) : JSNum :=
  let cs := (strTrim s).data
  if cs.isEmpty then .finite 0
  else
    let (neg, cs1) := parseSign cs
    if cs1 = "Infinity".data then .inf (!neg)
    else
      match parseDecimalPrefix cs1 with
      | some (q, []) => .finite (if neg then -q else q)
      | _ => .nan

/-- Fractional decimal digits of rem / d by long division, with fuel.
All numbers built by the adapters come from decimal literals, whose
expansions terminate well inside the fuel. -/
def fracDigits (rem d : Nat) : Nat → String
  | 0 => ""
  | fuel + 1 =>
    if rem = 0 then ""
    else
      let rem10 := rem * 10
      toString (rem10 / d) ++ fracDigits (rem10 % d) d fuel

/-- Rendering of a finite JavaScript number as by Number.prototype.toString:
integer values print without a decimal point, other values print their
decimal expansion (the exponent notation used beyond 1e21 is not modelled;
negative zero does not exist for rationals). -/
def ratToString (q : Rat) : String :=
  let sign := if q < 0 then "-" else ""
  let n := q.num.natAbs
  let d := q.den
  if n % d = 0 then sign ++ toString (n / d)
  else sign ++ toString (n / d) ++ "." ++ fracDigits (n % d) d 40

/-- String rendering of a JavaScript number, NaN and infinities included. -/
def numToString : JSNum → String
  | .finite q => ratToString q
  | .nan => "NaN"
  | .inf true => "Infinity"
  | .inf false => "-Infinity"

/-- Whether a value is null or undefined (these join as the empty string
inside an array). -/
def isNullOrUndef : JSVal → Bool
  | .null => true
  | .undefined => true
  | _ => false

mutual

/-- JavaScript string coercion of a value (template literals, array join):
arrays join their element strings with commas, null and undefined elements
joining as empty; plain objects print as [object Object]. -/
def jsToString : JSVal → String
  | .null => "null"
  | .undefined => "undefined"
  | .bool true => "true"
  | .bool false => "false"
  | .num n => numToString n
  | .str s => s
  | .obj _ => "[object Object]"
  | .arr xs => String.intercalate "," (jsJoinParts xs)

/-- The element strings of an array join, in order. -/
def jsJoinParts : List JSVal → List String
  | [] => []
  | v :: vs => (if isNullOrUndef v then "" else jsToString v) :: jsJoinParts vs

end

/-- JavaScript Number() on an arbitrary value: null is 0, undefined is NaN,
booleans are 0 and 1, strings parse as whole numeric literals, arrays
convert through their joined string, plain objects are NaN. -/
def toNumber : JSVal → JSNum
  | .null => .finite 0
  | .undefined => .nan
  | .bool b => .finite (if b then 1 else 0)
  | .num n => n
  | .str s => jsStringToNumber s
  | .arr xs => jsStringToNumber (jsToString (.arr xs))
  | .obj _ => .nan

/-- safeParseNumber from server/routes.ts: null and undefined give 0;
strings go through parseFloat and every other value through Number; a NaN
or non-finite result gives 0, every finite result is returned unchanged
(sign preserved). -/
def safeParseNumber (v : JSVal) : Rat :=
  match v with
  | .null => 0
  | .undefined => 0
  | v =>
    let num := match v with
      | .str s => parseFloat s
      | w => toNumber w
    match num with
    | .finite q => q
    | _ => 0

/-! ## Date parsing (new Date, safeParseDate) -/

/-- Exactly n decimal digits from the front of the input. -/
def takeDigits (n : Nat) (cs : List Char) : Option (Nat × List Char) :=
  let ds := cs.take n
  if ds.length = n ∧ ds.all Char.isDigit then some (digitsToNat ds, cs.drop n)
  else none

/-- One expected literal character. -/
def expectChar (c : Char) : List Char → Option (List Char)
  | d :: rest => if d = c then some rest else none
  | [] => none

/-- Gregorian leap-year rule. -/
def isLeapYear (y : Int) : Bool :=
  decide ((y % 4 = 0 ∧ y % 100 ≠ 0) ∨ y % 400 = 0)

/-- Number of days of month m (1 to 12) of year y. -/
def daysInMonth (y : Int) (m : Nat) : Nat :=
  if m = 2 then (if isLeapYear y then 29 else 28)
  else if m = 4 ∨ m = 6 ∨ m = 9 ∨ m = 11 then 30
  else 31

/-- Days from the Unix epoch to the civil date y-m-d (standard
era-of-400-years computation; the parser only produces four-digit years,
for which every division below is on non-negative values). -/
def daysFromCivil (y : Int) (m d : Nat) : Int :=
  let y2 := if m ≤ 2 then y - 1 else y
  let era := (if 0 ≤ y2 then y2 else y2 - 399) / 400
  let yoe := (y2 - era * 400).toNat
  let mp := (m + 9) % 12
  let doy := (153 * mp + 2) / 5 + d - 1
  let doe := yoe * 365 + yoe / 4 - yoe / 100 + doy
  era * 146097 + (doe : Int) - 719468

/-- Optional seconds-and-milliseconds part :SS[.f[f[f]]] of a time string;
when absent, nothing is consumed and both are zero. -/
def parseSecondsPart (cs : List Char) : Option (Nat × Nat × List Char) :=
  match cs with
  | ':' :: rest =>
    (match takeDigits 2 rest with
     | none => none
     | some (ss, r1) =>
       if 59 < ss then none
       else
         match r1 with
         | '.' :: r2 =>
           let ds := r2.takeWhile Char.isDigit
           if ds.isEmpty ∨ 3 < ds.length then none
           else some (ss, digitsToNat ds * 10 ^ (3 - ds.length), r2.dropWhile Char.isDigit)
         | _ => some (ss, 0, r1))
  | _ => some (0, 0, cs)

/-- A signed zone offset HH:MM, as milliseconds. -/
def parseZoneOffset (neg : Bool) (cs : List Char) : Option (Int × List Char) :=
  match takeDigits 2 cs with
  | none => none
  | some (h, r1) =>
  match expectChar ':' r1 with
  | none => none
  | some r2 =>
  match takeDigits 2 r2 with
  | none => none
  | some (m, r3) =>
  if 23 < h ∨ 59 < m then none
  else
    let off : Int := ((h * 60 + m) * 60000 : Nat)
    some (if neg then -off else off, r3)

/-- Optional time zone: Z, +HH:MM or -HH:MM; a zoneless datetime is read
as UTC (the local-time reading of the host is not modelled). -/
def parseZone : List Char → Option (Int × List Char)
  | [] => some (0, [])
  | 'Z' :: rest => some (0, rest)
  | '+' :: rest => parseZoneOffset false rest
  | '-' :: rest => parseZoneOffset true rest
  | _ => none

/-- Date.parse on the ISO-8601 shapes the upstream APIs emit:
YYYY-MM-DD with an optional THH:MM[:SS[.fff]][Z|+HH:MM|-HH:MM] part;
anything else is an invalid date (none).  Field ranges are validated the
way the JavaScript parser does (month 1-12, day within the month, hours
below 24, minutes and seconds below 60). -/
def isoParse (s : String) : Option Int :=
  match takeDigits 4 s.data with
  | none => none
  | some (y, r1) =>
  match expectChar '-' r1 with
  | none => none
  | some r2 =>
  match takeDigits 2 r2 with
  | none => none
  | some (mo, r3) =>
  match expectChar '-' r3 with
  | none => none
  | some r4 =>
  match takeDigits 2 r4 with
  | none => none
  | some (d, r5) =>
  if mo < 1 ∨ 12 < mo ∨ d < 1 ∨ daysInMonth (y : Int) mo < d then none
  else
    let dayMs : Int := daysFromCivil (y : Int) mo d * 86400000
    match r5 with
    | [] => some dayMs
    | 'T' :: r6 =>
      (match takeDigits 2 r6 with
       | none => none
       | some (hh, r7) =>
       match expectChar ':' r7 with
       | none => none
       | some r8 =>
       match takeDigits 2 r8 with
       | none => none
       | some (mi, r9) =>
       if 23 < hh ∨ 59 < mi then none
       else
         match parseSecondsPart r9 with
         | none => none
         | some (ss, ms, r10) =>
         match parseZone r10 with
         | none => none
         | some (off, r11) =>
         if r11.isEmpty then
           some (dayMs + ((hh * 3600000 + mi * 60000 + ss * 1000 + ms : Nat) : Int) - off)
         else none)
    | _ => none

/-- The result of new Date(v), as some epoch-millisecond value or none for
an invalid date.  A finite number is truncated toward zero and clipped to
the valid range of 8.64e15 milliseconds around the epoch; NaN and the
infinities are invalid; strings go through the date parser; true and false
coerce to 1 and 0; null coerces to 0; an array converts through its joined
string; a plain object is invalid. -/
def jsNewDate : JSVal → Option Int
  | .num (.finite q) =>
    let t : Int := q.num.tdiv (q.den : Int)
    if t.natAbs ≤ 8640000000000000 then some t else none
  | .num _ => none
  | .str s => isoParse s
  | .bool b => some (if b then 1 else 0)
  | .null => some 0
  | .undefined => none
  | .arr xs => isoParse (jsToString (.arr xs))
  | .obj _ => none

/-- safeParseDate from server/routes.ts: a falsy input gives null at once;
otherwise the value goes through new Date and an invalid result gives
null, a valid one its timestamp. -/
def safeParseDate (v : JSVal) : Option Int :=
  if JSVal.truthy v = false then none
  else jsNewDate v

/-! ## Configuration constants (server/constants.ts) -/

def REFRESH_INTERVAL_MS : Nat := 60 * 1000
def POLYMARKET_API_LIMIT : Nat := 100
def KALSHI_API_LIMIT : Nat := 100
def REQUEST_TIMEOUT_MS : Nat := 30000
def STALE_MARKET_THRESHOLD_MINUTES : Nat := 24 * 60

/-! ## The canonical record the adapters produce (InsertMarket of
shared/schema.ts: the markets table without id and lastUpdated) -/

/-- A normalized market record as handed to the store.  Timestamps are
epoch milliseconds; decimal values travel as strings, as in the source. -/
structure InsertMarket where
  externalId : String
  platform : String
  question : String
  url : String
  totalVolume : String
  volume24h : Option String
  startDate : Option Int
  endDate : Option Int
  resolutionRules : Option String
deriving DecidableEq, Repr

open JSVal in
/-- The per-entry mapping of fetchPolymarket: the body of the final
.map over entries that passed both filters. -/
def polyToRecord (m : JSVal) : InsertMarket :=
  { externalId := jsToString (jsOr (m.getField "id") (m.getField "ticker"))
    platform := "polymarket"
    question :=
      strTake (strTrim (jsToString (jsOr (jsOr (m.getField "question") (m.getField "title"))
        (.str "Untitled Market")))) 500
    url :=
      if (m.getField "slug").truthy then
        "https://polymarket.com/event/" ++ jsToString (m.getField "slug")
      else "https://polymarket.com"
    totalVolume := ratToString (safeParseNumber (m.getField "volume"))
    volume24h := some (ratToString (safeParseNumber
      (jsOr (jsOr (m.getField "volume24hr") (m.getField "volume_24h"))
        (m.getField "24hr_volume"))))
    startDate := safeParseDate (m.getField "startDate")
    endDate := safeParseDate (m.getField "endDate")
    resolutionRules := some (strTake (jsToString (jsOr (m.getField "description") (.str ""))) 2000) }

open JSVal in
/-- The per-entry mapping of fetchKalshi: the body of the .map over
entries with a truthy ticker. -/
def kalshiToRecord (m : JSVal) : InsertMarket :=
  let vol := safeParseNumber (m.getField "volume")
  let recentVol := safeParseNumber
    (jsOr (jsOr (m.getField "recent_volume") (m.getField "last_24h_volume"))
      (m.getField "volume_24h"))
  { externalId := jsToString (m.getField "ticker")
    platform := "kalshi"
    question :=
      strTake (strTrim (jsToString (jsOr (jsOr (m.getField "title") (m.getField "ticker"))
        (.str "Untitled Market")))) 500
    url := "https://kalshi.com/markets/" ++ jsToString (m.getField "ticker")
    totalVolume := ratToString vol
    volume24h := some (ratToString recentVol)
    startDate := safeParseDate (m.getField "open_date")
    endDate := safeParseDate (m.getField "close_date")
    resolutionRules := some
      (strTake (jsToString (jsOr (jsOr (m.getField "rules_primary") (m.getField "subtitle"))
        (.str ""))) 2000) }

/-- The outcome of one upstream HTTP call: a network-level failure (a
thrown fetch error or the timeout abort), or a response carrying a status
code and a body whose JSON decoding may itself fail. -/
inductive UpstreamResult where
  | netFail (msg : String)
  | resp (status : Nat) (body : Except String JSVal)

/-- response.ok: status in the 2xx range. -/
def respOk (status : Nat) : Bool := decide (200 ≤ status) && decide (status < 300)

open JSVal in
/-- fetchPolymarket from server/routes.ts: a failed call, a non-2xx
status, an undecodable body or a non-array body give the empty list;
otherwise the entries with truthy active, non-truthy closed and a usable
id or ticker are normalized. -/
def fetchPolymarket : UpstreamResult → List InsertMarket
  | .netFail _ => []
  | .resp status body =>
    if respOk status = false then []
    else
      match body with
      | .error _ => []
      | .ok data =>
        match data with
        | .arr xs =>
          ((xs.filter (fun m => (m.getField "active").truthy && !(m.getField "closed").truthy)).filter
            (fun m => (jsOr (m.getField "id") (m.getField "ticker")).truthy)).map polyToRecord
        | _ => []

open JSVal in
/-- The listings field of the Kalshi body: data.markets when it is an
array, and the empty list otherwise (a falsy field defaults through
|| to the empty array; a truthy non-array field makes the following
.filter throw, which the surrounding catch turns into the empty result). -/
def kalshiEntries (data : JSVal) : List JSVal :=
  match jsOr (data.getField "markets") (.arr []) with
  | .arr xs => xs
  | _ => []

open JSVal in
/-- fetchKalshi from server/routes.ts: a failed call, a non-2xx status or
an undecodable body give the empty list; otherwise the entries of
data.markets with a truthy ticker are normalized. -/
def fetchKalshi : UpstreamResult → List InsertMarket
  | .netFail _ => []
  | .resp status body =>
    if respOk status = false then []
    else
      match body with
      | .error _ => []
      | .ok data =>
        ((kalshiEntries data).filter (fun m => (m.getField "ticker").truthy)).map kalshiToRecord

/-! ## Storage (server/storage.ts, class DatabaseStorage over the markets
table of shared/schema.ts).  The relational engine is modelled as the
keyed collection the schema and statements describe: rows carry the
serial id, the record fields and the server-assigned lastUpdated; the
upsert statement is keyed by the unique external_id index. -/

/-- A row of the markets table.  totalVolume holds the decimal string the
driver exchanges for the numeric column; lastUpdated is nullable with a
now() default, so it is written on every touch. -/
structure MarketRow where
  id : Nat
  externalId : String
  platform : String
  question : String
  url : String
  totalVolume : String
  volume24h : Option String
  startDate : Option Int
  endDate : Option Int
  resolutionRules : Option String
  lastUpdated : Option Int
deriving DecidableEq, Repr

/-- The table state: its rows and the next serial id. -/
structure Store where
  rows : List MarketRow
  nextId : Nat
deriving DecidableEq, Repr

/-- Well-formedness the engine maintains: serial ids are distinct and
below the counter, and the unique index on external_id holds. -/
def WF (s : Store) : Prop :=
  (s.rows.map (fun r => r.id)).Nodup ∧
  (∀ r ∈ s.rows, r.id < s.nextId) ∧
  (s.rows.map (fun r => r.externalId)).Nodup

instance (s : Store) : Decidable (WF s) := by
  unfold WF; infer_instance

/-- The numeric value of a stored decimal string: the comparison key the
numeric column sorts by. -/
def decValue (s : String) : Rat :=
  match parseFloat s with
  | .finite q => q
  | _ => 0

/-- Descending comparison on the numeric value of totalVolume
(orderBy desc totalVolume on a numeric column). -/
def marketLe (a b : MarketRow) : Bool :=
  decide (decValue b.totalVolume ≤ decValue a.totalVolume)

/-- The where-clause of getMarkets: endDate is null, or endDate is not
before the start of the current day. -/
def endDateKeep (todayStart : Int) (r : MarketRow) : Bool :=
  match r.endDate with
  | none => true
  | some d => decide (todayStart ≤ d)

/-- getMarkets of DatabaseStorage: select the rows whose endDate is null
or at least the start of the current day, ordered by totalVolume
descending under numeric comparison.  todayStart is the epoch value of
new Date() with the time fields cleared. -/
def getMarkets (todayStart : Int) (s : Store) : List MarketRow :=
  (s.rows.filter (endDateKeep todayStart)).mergeSort marketLe

/-- The conflict action of the upsert statement: the matched row takes the
batch values of totalVolume, volume24h, question and endDate, and the
write-time lastUpdated; every other column keeps its value. -/
def updateRowFields (writeTime : Int) (rec : InsertMarket) (row : MarketRow) : MarketRow :=
  { row with
    totalVolume := rec.totalVolume
    volume24h := rec.volume24h
    lastUpdated := some writeTime
    question := rec.question
    endDate := rec.endDate }

/-- A freshly inserted row: the record fields, a new serial id and the
defaulted lastUpdated. -/
def freshRow (id : Nat) (writeTime : Int) (rec : InsertMarket) : MarketRow :=
  { id := id
    externalId := rec.externalId
    platform := rec.platform
    question := rec.question
    url := rec.url
    totalVolume := rec.totalVolume
    volume24h := rec.volume24h
    startDate := rec.startDate
    endDate := rec.endDate
    resolutionRules := rec.resolutionRules
    lastUpdated := some writeTime }

/-- One value row of the insert-on-conflict statement: update the row that
shares the externalId if there is one, insert a fresh row otherwise. -/
def applyUpsertRecord (writeTime : Int) (s : Store) (rec : InsertMarket) : Store :=
  if s.rows.any (fun row => row.externalId = rec.externalId) then
    { s with rows := s.rows.map (fun row =>
        if row.externalId = rec.externalId then updateRowFields writeTime rec row else row) }
  else
    { rows := s.rows ++ [freshRow s.nextId writeTime rec], nextId := s.nextId + 1 }

/-- One chunked insert statement over its value rows, in order. -/
def upsertChunk (writeTime : Int) (chunk : List InsertMarket) (s : Store) : Store :=
  chunk.foldl (applyUpsertRecord writeTime) s

def CHUNK_SIZE : Nat := 1000

/-- Accumulating pass of the chunking loop: cur is the reversed chunk
being built, k counts the room left in it. -/
def chunkedGo (n : Nat) : List InsertMarket → List InsertMarket → Nat → List (List InsertMarket)
  | cur, [], _ => [cur.reverse]
  | cur, x :: xs, 0 => cur.reverse :: chunkedGo n [x] xs (n - 1)
  | cur, x :: xs, k + 1 => chunkedGo n (x :: cur) xs k

/-- The batch split into slices of the given size, in order (the loop of
upsertMarkets advances by CHUNK_SIZE). -/
def chunked (n : Nat) (l : List InsertMarket) : List (List InsertMarket) :=
  match l with
  | [] => []
  | x :: xs => chunkedGo n [x] xs (n - 1)

/-- upsertMarkets of DatabaseStorage: an empty batch is a no-op, otherwise
the batch is written chunk by chunk, each chunk one insert-on-conflict
statement keyed by external_id.  The per-chunk new Date() readings are
modelled by the single writeTime of the call. -/
def upsertMarkets (writeTime : Int) (batch : List InsertMarket) (s : Store) : Store :=
  if batch.isEmpty then s
  else (chunked CHUNK_SIZE batch).foldl (fun acc c => upsertChunk writeTime c acc) s

/-- The where-clause of deleteStaleMarkets on one row: lastUpdated is
known and precedes the cutoff (a null lastUpdated never compares below
the cutoff in SQL). -/
def staleAt (cutoff : Int) (r : MarketRow) : Bool :=
  match r.lastUpdated with
  | some t => decide (t < cutoff)
  | none => false

/-- deleteStaleMarkets of DatabaseStorage: remove every row whose
lastUpdated precedes now minus the threshold in minutes, and return how
many rows were removed (the length of the returning list). -/
def deleteStaleMarkets (minutes : Nat) (now : Int) (s : Store) : Store × Nat :=
  let cutoff := now - (minutes : Int) * 60000
  ({ s with rows := s.rows.filter (fun r => !staleAt cutoff r) },
   (s.rows.filter (staleAt cutoff)).length)

/-- refreshAllMarkets of server/routes.ts: both adapters run (a settled
failure contributes the empty list), their outputs are concatenated in
adapter order, a non-empty batch is upserted and stale rows are then
evicted under the 24-hour threshold; an empty batch leaves the store
untouched.  tWrite and tEvict are the clock readings of the upsert and
of the eviction. -/
def refreshAllMarkets (polyUp kalshiUp : UpstreamResult) (tWrite tEvict : Int) (s : Store) : Store :=
  let poly := fetchPolymarket polyUp
  let kalshi := fetchKalshi kalshiUp
  let allMarkets := poly ++ kalshi
  if 0 < allMarkets.length then
    (deleteStaleMarkets STALE_MARKET_THRESHOLD_MINUTES tEvict
      (upsertMarkets tWrite allMarkets s)).1
  else s

/-! ## Concrete fixtures used in the exemplar statements -/

/-- A row whose market ended yesterday relative to a day starting at 0. -/
def demoRowPast : MarketRow :=
  { id := 1, externalId := "p1", platform := "polymarket", question := "past", url := "u1",
    totalVolume := "50", volume24h := some "1", startDate := none,
    endDate := some (-86400000), resolutionRules := some "", lastUpdated := some 0 }

/-- A row with no known end time and totalVolume 9. -/
def demoRowNoEnd : MarketRow :=
  { id := 2, externalId := "p2", platform := "polymarket", question := "open", url := "u2",
    totalVolume := "9", volume24h := some "1", startDate := none,
    endDate := none, resolutionRules := some "", lastUpdated := some 0 }

/-- A row ending tomorrow with totalVolume 10 (numerically above 9, below
it under string comparison). -/
def demoRowFuture : MarketRow :=
  { id := 3, externalId := "p3", platform := "kalshi", question := "future", url := "u3",
    totalVolume := "10", volume24h := some "1", startDate := none,
    endDate := some 86400000, resolutionRules := some "", lastUpdated := some 0 }

/-- A Kalshi payload entry whose own status field says settled, not open. -/
def kalshiSettledEntry : JSVal :=
  .obj [("ticker", .str "T"), ("status", .str "settled")]

/-- An empty store with the serial counter at 1. -/
def emptyStore : Store := { rows := [], nextId := 1 }

/-- A concrete normalized record. -/
def demoRec : InsertMarket :=
  { externalId := "a1", platform := "polymarket", question := "q",
    url := "https://polymarket.com", totalVolume := "500", volume24h := some "5",
    startDate := none, endDate := none, resolutionRules := some "" }

/-- A row last updated eleven minutes before time zero. -/
def demoRowStale : MarketRow :=
  { id := 1, externalId := "s1", platform := "kalshi", question := "stale", url := "u",
    totalVolume := "1", volume24h := some "0", startDate := none, endDate := none,
    resolutionRules := some "", lastUpdated := some (-660000) }

/-- A store holding only the stale row. -/
def demoStaleStore : Store := { rows := [demoRowStale], nextId := 2 }

/-- A store holding only the no-end-date row. -/
def demoStoreOne : Store := { rows := [demoRowNoEnd], nextId := 3 }

/-- A successful Kalshi response carrying one well-formed entry. -/
def kalshiOkUpstream : UpstreamResult :=
  .resp 200 (.ok (.obj [("markets", .arr [.obj [("ticker", .str "T")]])]))

/-- A Polymarket payload entry that is active, not closed, with an id. -/
def polyActiveEntry : JSVal :=
  .obj [("id", .str "5"), ("active", .bool true), ("closed", .bool false)]

/-! ## Helper lemmas: chunking and the upsert fold -/

theorem chunkedGo_flatten (n : Nat) (rest : List InsertMarket) :
    ∀ (cur : List InsertMarket) (k : Nat),
      (chunkedGo n cur rest k).flatten = cur.reverse ++ rest := by
  induction rest with
  | nil => intro cur k; simp [chunkedGo]
  | cons x xs ih =>
    intro cur k
    cases k with
    | zero => simp [chunkedGo, ih]
    | succ k => simp [chunkedGo, ih]

theorem chunked_flatten (n : Nat) (l : List InsertMarket) :
    (chunked n l).flatten = l := by
  cases l with
  | nil => rfl
  | cons x xs => simp [chunked, chunkedGo_flatten]

theorem upsertMarkets_eq_foldl (t : Int) (b : List InsertMarket) (s : Store) :
    upsertMarkets t b s = b.foldl (applyUpsertRecord t) s := by
  cases b with
  | nil => rfl
  | cons x xs =>
    show (chunked CHUNK_SIZE (x :: xs)).foldl (fun acc c => upsertChunk t c acc) s = _
    conv_rhs => rw [← chunked_flatten CHUNK_SIZE (x :: xs), List.foldl_flatten]
    rfl

/-! ## Helper lemmas: rows sharing an externalId under upsert -/

theorem filter_map_update (l : List MarketRow) (e : String) (f : MarketRow → MarketRow)
    (hf : ∀ r, (f r).externalId = r.externalId) :
    (l.map (fun row => if row.externalId = e then f row else row)).filter
        (fun row => row.externalId = e) =
      (l.filter (fun row => row.externalId = e)).map f := by
  induction l with
  | nil => rfl
  | cons a l ih =>
    by_cases h : a.externalId = e
    · simp [h, hf, ih]
    · simp [h, ih]

theorem filter_single_of_nodup (l : List MarketRow) (e : String)
    (hn : (l.map (fun r => r.externalId)).Nodup)
    (hx : l.any (fun r => r.externalId = e) = true) :
    ∃ r0, l.filter (fun r => r.externalId = e) = [r0] := by
  induction l with
  | nil => simp at hx
  | cons a l ih =>
    simp only [List.map_cons, List.nodup_cons] at hn
    by_cases h : a.externalId = e
    · refine ⟨a, ?_⟩
      have h0 : l.filter (fun r => r.externalId = e) = [] := by
        rw [List.filter_eq_nil_iff]
        intro b hb
        simp only [decide_eq_true_eq]
        intro hbe
        exact hn.1 (h ▸ hbe ▸ List.mem_map_of_mem (fun r => r.externalId) hb)
      simp [List.filter_cons, h, h0]
    · rw [List.any_cons] at hx
      have hx2 : l.any (fun r => r.externalId = e) = true := by
        simpa [h] using hx
      obtain ⟨r0, hr0⟩ := ih hn.2 hx2
      exact ⟨r0, by simp [List.filter_cons, h, hr0]⟩

theorem applyUpsert_filter (t : Int) (rec : InsertMarket) (s : Store) (h : WF s) :
    ∃ r1, (applyUpsertRecord t s rec).rows.filter
        (fun r => r.externalId = rec.externalId) = [r1] ∧
      r1.totalVolume = rec.totalVolume ∧ r1.volume24h = rec.volume24h ∧
      r1.question = rec.question ∧ r1.endDate = rec.endDate ∧
      r1.lastUpdated = some t ∧ r1.externalId = rec.externalId := by
  by_cases hex : s.rows.any (fun row => row.externalId = rec.externalId) = true
  · obtain ⟨r0, hr0⟩ := filter_single_of_nodup s.rows rec.externalId h.2.2 hex
    have hr0id : r0.externalId = rec.externalId := by
      have : r0 ∈ s.rows.filter (fun r => r.externalId = rec.externalId) := by
        rw [hr0]; exact List.mem_singleton_self r0
      simpa using (List.mem_filter.mp this).2
    refine ⟨updateRowFields t rec r0, ?_, rfl, rfl, rfl, rfl, rfl, hr0id⟩
    simp only [applyUpsertRecord, hex, if_true]
    rw [filter_map_update s.rows rec.externalId (updateRowFields t rec) (fun r => rfl), hr0]
    rfl
  · have hexf : s.rows.any (fun row => row.externalId = rec.externalId) = false := by
      simpa using hex
    refine ⟨freshRow s.nextId t rec, ?_, rfl, rfl, rfl, rfl, rfl, rfl⟩
    simp only [applyUpsertRecord, hexf, Bool.false_eq_true, if_false]
    rw [List.filter_append]
    have h1 : s.rows.filter (fun r => r.externalId = rec.externalId) = [] := by
      rw [List.filter_eq_nil_iff]
      intro b hb
      simp only [decide_eq_true_eq]
      intro hbe
      exact hex (List.any_eq_true.mpr ⟨b, hb, by simp [hbe]⟩)
    rw [h1]
    simp [freshRow]

theorem updateRowFields_self (t2 : Int) (rec : InsertMarket) (r : MarketRow)
    (ha : r.totalVolume = rec.totalVolume) (hb : r.volume24h = rec.volume24h)
    (hc : r.question = rec.question) (hd : r.endDate = rec.endDate) :
    updateRowFields t2 rec r = { r with lastUpdated := some t2 } := by
  unfold updateRowFields
  rw [← ha, ← hb, ← hc, ← hd]

theorem applyUpsert_map_of_filter (t2 : Int) (rec : InsertMarket) (s1 : Store) (r1 : MarketRow)
    (hr1 : s1.rows.filter (fun r => r.externalId = rec.externalId) = [r1])
    (ha : r1.totalVolume = rec.totalVolume) (hb : r1.volume24h = rec.volume24h)
    (hc : r1.question = rec.question) (hd : r1.endDate = rec.endDate) :
    (applyUpsertRecord t2 s1 rec).rows =
      s1.rows.map (fun row => if row.externalId = rec.externalId
        then { row with lastUpdated := some t2 } else row) := by
  have hmem : r1 ∈ s1.rows ∧ r1.externalId = rec.externalId := by
    have h1 : r1 ∈ s1.rows.filter (fun r => r.externalId = rec.externalId) := by
      rw [hr1]; exact List.mem_singleton_self r1
    have h2 := List.mem_filter.mp h1
    exact ⟨h2.1, by simpa using h2.2⟩
  have hex : s1.rows.any (fun row => row.externalId = rec.externalId) = true :=
    List.any_eq_true.mpr ⟨r1, hmem.1, by simp [hmem.2]⟩
  simp only [applyUpsertRecord, hex, if_true]
  apply List.map_congr_left
  intro row hrow
  by_cases hp : row.externalId = rec.externalId
  · have h3 : row ∈ s1.rows.filter (fun r => r.externalId = rec.externalId) :=
      List.mem_filter.mpr ⟨hrow, by simp [hp]⟩
    rw [hr1] at h3
    have heq : row = r1 := by simpa using h3
    subst heq
    rw [if_pos hp, if_pos hp]
    exact updateRowFields_self t2 rec row ha hb hc hd
  · simp [hp]

/-- C2: upserting the same record twice in a row (same externalId, same
field values) leaves exactly one row with that externalId, and the second
call changes only lastUpdated: every row of the store after the second
call is the corresponding row after the first call, with only the matched
row touched, and only in its lastUpdated field. -/
theorem upsertMarkets_idempotent (rec : InsertMarket) (t1 t2 : Int) (s : Store) (h : WF s) :
    ((upsertMarkets t2 [rec] (upsertMarkets t1 [rec] s)).rows.filter
        (fun r => r.externalId = rec.externalId)).length = 1 ∧
    ∃ r1, (upsertMarkets t1 [rec] s).rows.filter
        (fun r => r.externalId = rec.externalId) = [r1] ∧
      (upsertMarkets t2 [rec] (upsertMarkets t1 [rec] s)).rows.filter
        (fun r => r.externalId = rec.externalId) = [{ r1 with lastUpdated := some t2 }] ∧
      (upsertMarkets t2 [rec] (upsertMarkets t1 [rec] s)).rows =
        (upsertMarkets t1 [rec] s).rows.map
          (fun row => if row.externalId = rec.externalId
            then { row with lastUpdated := some t2 } else row) := by
  have e1 : upsertMarkets t1 [rec] s = applyUpsertRecord t1 s rec := by
    rw [upsertMarkets_eq_foldl]; rfl
  have e2 : upsertMarkets t2 [rec] (upsertMarkets t1 [rec] s) =
      applyUpsertRecord t2 (upsertMarkets t1 [rec] s) rec := by
    rw [upsertMarkets_eq_foldl]; rfl
  obtain ⟨r1, hf1, ha, hb, hc, hd, he, hx⟩ := applyUpsert_filter t1 rec s h
  rw [e2, e1]
  have hmap := applyUpsert_map_of_filter t2 rec (applyUpsertRecord t1 s rec) r1 hf1 ha hb hc hd
  have hfilter2 : (applyUpsertRecord t2 (applyUpsertRecord t1 s rec) rec).rows.filter
      (fun r => r.externalId = rec.externalId) = [{ r1 with lastUpdated := some t2 }] := by
    rw [hmap, filter_map_update (applyUpsertRecord t1 s rec).rows rec.externalId
      (fun row => { row with lastUpdated := some t2 }) (fun r => rfl), hf1]
    rfl
  exact ⟨by rw [hfilter2]; rfl, r1, hf1, hfilter2, hmap⟩

/-! ## Helper lemmas: the upsert fold preserves ids and frame fields -/

theorem applyUpsert_id_bound (t : Int) (rec : InsertMarket) (s : Store)
    (h : ∀ r ∈ s.rows, r.id < s.nextId) :
    (∀ r ∈ (applyUpsertRecord t s rec).rows, r.id < (applyUpsertRecord t s rec).nextId) ∧
    s.nextId ≤ (applyUpsertRecord t s rec).nextId := by
  unfold applyUpsertRecord
  split
  · refine ⟨?_, le_refl _⟩
    intro r hr
    obtain ⟨row, hrow, heq⟩ := List.mem_map.mp hr
    have hid : r.id = row.id := by
      by_cases hp : row.externalId = rec.externalId
      · rw [← heq, if_pos hp]; rfl
      · rw [← heq, if_neg hp]
    rw [hid]
    exact h row hrow
  · refine ⟨?_, Nat.le_succ _⟩
    intro r hr
    rcases List.mem_append.mp hr with h1 | h1
    · exact Nat.lt_succ_of_lt (h r h1)
    · have : r = freshRow s.nextId t rec := by simpa using h1
      rw [this]
      exact Nat.lt_succ_self _

theorem applyUpsert_frame (t : Int) (rec : InsertMarket) (s : Store) (i : Nat) (v : MarketRow)
    (hi : i < s.nextId)
    (hframe : ∀ r ∈ s.rows, r.id = i →
      r.platform = v.platform ∧ r.url = v.url ∧ r.startDate = v.startDate ∧
      r.resolutionRules = v.resolutionRules ∧ r.externalId = v.externalId) :
    ∀ r ∈ (applyUpsertRecord t s rec).rows, r.id = i →
      r.platform = v.platform ∧ r.url = v.url ∧ r.startDate = v.startDate ∧
      r.resolutionRules = v.resolutionRules ∧ r.externalId = v.externalId := by
  unfold applyUpsertRecord
  split
  · intro r hr hid
    obtain ⟨row, hrow, heq⟩ := List.mem_map.mp hr
    by_cases hp : row.externalId = rec.externalId
    · rw [if_pos hp] at heq
      have hfields : r.platform = row.platform ∧ r.url = row.url ∧
          r.startDate = row.startDate ∧ r.resolutionRules = row.resolutionRules ∧
          r.externalId = row.externalId ∧ r.id = row.id := by
        rw [← heq]; exact ⟨rfl, rfl, rfl, rfl, rfl, rfl⟩
      have hrowf := hframe row hrow (hfields.2.2.2.2.2 ▸ hid)
      exact ⟨hfields.1.trans hrowf.1, hfields.2.1.trans hrowf.2.1,
        hfields.2.2.1.trans hrowf.2.2.1, hfields.2.2.2.1.trans hrowf.2.2.2.1,
        hfields.2.2.2.2.1.trans hrowf.2.2.2.2⟩
    · rw [if_neg hp] at heq
      exact hframe r (heq ▸ hrow) hid
  · intro r hr hid
    rcases List.mem_append.mp hr with h1 | h1
    · exact hframe r h1 hid
    · exfalso
      have hr2 : r = freshRow s.nextId t rec := by simpa using h1
      rw [hr2] at hid
      exact absurd hid.symm (Nat.ne_of_lt hi)

theorem foldl_upsert_frame (t : Int) (b : List InsertMarket) (i : Nat) (v : MarketRow) :
    ∀ s : Store, (∀ r ∈ s.rows, r.id < s.nextId) → i < s.nextId →
      (∀ r ∈ s.rows, r.id = i →
        r.platform = v.platform ∧ r.url = v.url ∧ r.startDate = v.startDate ∧
        r.resolutionRules = v.resolutionRules ∧ r.externalId = v.externalId) →
      ∀ r ∈ (b.foldl (applyUpsertRecord t) s).rows, r.id = i →
        r.platform = v.platform ∧ r.url = v.url ∧ r.startDate = v.startDate ∧
        r.resolutionRules = v.resolutionRules ∧ r.externalId = v.externalId := by
  induction b with
  | nil => intro s hbound hi hframe; simpa using hframe
  | cons rec b ih =>
    intro s hbound hi hframe
    simp only [List.foldl_cons]
    exact ih (applyUpsertRecord t s rec)
      (applyUpsert_id_bound t rec s hbound).1
      (lt_of_lt_of_le hi (applyUpsert_id_bound t rec s hbound).2)
      (applyUpsert_frame t rec s i v hi hframe)

theorem foldl_upsert_mem (t : Int) (b : List InsertMarket) (row : MarketRow) :
    ∀ s : Store, row ∈ s.rows → (∀ rec ∈ b, rec.externalId ≠ row.externalId) →
      row ∈ (b.foldl (applyUpsertRecord t) s).rows := by
  induction b with
  | nil => intro s h _; simpa using h
  | cons rec b ih =>
    intro s hrow hall
    simp only [List.foldl_cons]
    apply ih
    · unfold applyUpsertRecord
      split
      · refine List.mem_map.mpr ⟨row, hrow, ?_⟩
        rw [if_neg]
        intro hc
        exact hall rec (List.mem_cons_self rec b) (hc ▸ rfl)
      · exact List.mem_append_left _ hrow
    · intro rec2 h2
      exact hall rec2 (List.mem_cons_of_mem _ h2)

/-- C5: an upsert batch updates only totalVolume, volume24h, question,
endDate and lastUpdated of a matched row: whatever row of the result
carries the id of a pre-existing row still carries its platform, url,
startDate, resolutionRules and externalId; and a row matched by no batch
record is still present, unchanged, after the call. -/
theorem upsertMarkets_frame (t : Int) (b : List InsertMarket) (s : Store) (h : WF s)
    (row : MarketRow) (hrow : row ∈ s.rows) :
    ((∀ rec ∈ b, rec.externalId ≠ row.externalId) → row ∈ (upsertMarkets t b s).rows) ∧
    (∀ r2 ∈ (upsertMarkets t b s).rows, r2.id = row.id →
      r2.platform = row.platform ∧ r2.url = row.url ∧ r2.startDate = row.startDate ∧
      r2.resolutionRules = row.resolutionRules ∧ r2.externalId = row.externalId) := by
  rw [upsertMarkets_eq_foldl]
  constructor
  · intro hall
    exact foldl_upsert_mem t b row s hrow hall
  · refine foldl_upsert_frame t b row.id row s h.2.1 (h.2.1 row hrow) ?_
    intro r hr hid
    have : r = row := List.inj_on_of_nodup_map h.1 hr hrow hid
    rw [this]
    exact ⟨rfl, rfl, rfl, rfl, rfl⟩

/-! ## Helper lemmas: the read ordering -/

theorem marketLe_trans (a b c : MarketRow) (h1 : marketLe a b = true)
    (h2 : marketLe b c = true) : marketLe a c = true := by
  simp only [marketLe, decide_eq_true_eq] at h1 h2 ⊢
  exact le_trans h2 h1

theorem marketLe_total (a b : MarketRow) : (marketLe a b || marketLe b a) = true := by
  simp only [marketLe, Bool.or_eq_true, decide_eq_true_eq]
  exact le_total _ _

/-- C1: getMarkets returns exactly the rows whose endDate is null or not
before the start of the current day, ordered by totalVolume descending
under numeric comparison of the decimal value.  The final conjunct pins
the behaviour on a concrete store: the row that ended yesterday is
absent, the null-endDate row and the tomorrow row are present, and the
volumes 10 and 9 come back in numeric order (string comparison would
order them the other way). -/
theorem getMarkets_correct :
    (∀ todayStart s, (getMarkets todayStart s).Perm
      (s.rows.filter (endDateKeep todayStart))) ∧
    (∀ todayStart s r, r ∈ getMarkets todayStart s ↔
      r ∈ s.rows ∧ (r.endDate = none ∨ ∃ d, r.endDate = some d ∧ todayStart ≤ d)) ∧
    (∀ todayStart s, (getMarkets todayStart s).Pairwise
      (fun a b => decValue b.totalVolume ≤ decValue a.totalVolume)) ∧
    getMarkets 0 { rows := [demoRowPast, demoRowNoEnd, demoRowFuture], nextId := 4 } =
      [demoRowFuture, demoRowNoEnd] := by
  refine ⟨?_, ?_, ?_, ?_⟩
  · intro todayStart s
    exact (List.mergeSort_perm _ _).trans (List.Perm.refl _)
  · intro todayStart s r
    constructor
    · intro hr
      have hr2 : r ∈ s.rows.filter (endDateKeep todayStart) :=
        (List.mergeSort_perm _ marketLe).mem_iff.mp hr
      have hr3 := List.mem_filter.mp hr2
      refine ⟨hr3.1, ?_⟩
      have := hr3.2
      unfold endDateKeep at this
      cases hed : r.endDate with
      | none => exact Or.inl rfl
      | some d =>
        rw [hed] at this
        exact Or.inr ⟨d, rfl, by simpa using this⟩
    · intro ⟨hmem, hed⟩
      apply (List.mergeSort_perm _ marketLe).mem_iff.mpr
      refine List.mem_filter.mpr ⟨hmem, ?_⟩
      unfold endDateKeep
      rcases hed with h0 | ⟨d, hd, hled⟩
      · rw [h0]
      · rw [hd]; simpa using hled
  · intro todayStart s
    have hs := List.sorted_mergeSort marketLe_trans marketLe_total
      (s.rows.filter (endDateKeep todayStart))
    exact hs.imp (fun h => by simpa [marketLe] using h)
  · show (List.filter (endDateKeep 0) [demoRowPast, demoRowNoEnd, demoRowFuture]).mergeSort
      marketLe = [demoRowFuture, demoRowNoEnd]
    rw [show List.filter (endDateKeep 0) [demoRowPast, demoRowNoEnd, demoRowFuture] =
      [demoRowNoEnd, demoRowFuture] from by decide]
    have h1 : marketLe demoRowNoEnd demoRowFuture = false := by decide
    have h2 : marketLe demoRowFuture demoRowNoEnd = true := by decide
    simp [List.mergeSort, h1, h2]

/-- C6: deleteStaleMarkets removes exactly the rows whose lastUpdated
precedes now minus the threshold in minutes — a row stays iff it is in
the store and its lastUpdated, when known, is at least the cutoff — and
the returned count is the number of rows removed; in particular a row
last updated threshold-plus-one minutes ago is removed and one updated
threshold-minus-one minutes ago is retained. -/
theorem deleteStaleMarkets_correct :
    (∀ (minutes : Nat) (now : Int) (s : Store) (r : MarketRow),
      r ∈ (deleteStaleMarkets minutes now s).1.rows ↔
        r ∈ s.rows ∧ ∀ u, r.lastUpdated = some u → now - (minutes : Int) * 60000 ≤ u) ∧
    (∀ (minutes : Nat) (now : Int) (s : Store),
      (deleteStaleMarkets minutes now s).2 =
        s.rows.length - (deleteStaleMarkets minutes now s).1.rows.length) ∧
    (∀ (minutes : Nat) (now : Int) (s : Store) (r : MarketRow), r ∈ s.rows →
      r.lastUpdated = some (now - (minutes : Int) * 60000 - 60000) →
      r ∉ (deleteStaleMarkets minutes now s).1.rows) ∧
    (∀ (minutes : Nat) (now : Int) (s : Store) (r : MarketRow), r ∈ s.rows →
      r.lastUpdated = some (now - (minutes : Int) * 60000 + 60000) →
      r ∈ (deleteStaleMarkets minutes now s).1.rows) := by
  have hmem : ∀ (minutes : Nat) (now : Int) (s : Store) (r : MarketRow),
      r ∈ (deleteStaleMarkets minutes now s).1.rows ↔
        r ∈ s.rows ∧ ∀ u, r.lastUpdated = some u → now - (minutes : Int) * 60000 ≤ u := by
    intro minutes now s r
    show r ∈ s.rows.filter _ ↔ _
    rw [List.mem_filter]
    constructor
    · rintro ⟨h1, h2⟩
      refine ⟨h1, ?_⟩
      intro u hu
      simp only [staleAt, hu, Bool.not_eq_eq_eq_not, Bool.not_true, decide_eq_false_iff_not,
        not_lt] at h2
      exact h2
    · rintro ⟨h1, h2⟩
      refine ⟨h1, ?_⟩
      cases hu : r.lastUpdated with
      | none => simp [staleAt, hu]
      | some u => simp [staleAt, hu, not_lt.mpr (h2 u hu)]
  refine ⟨hmem, ?_, ?_, ?_⟩
  · intro minutes now s
    show (s.rows.filter _).length = s.rows.length - (s.rows.filter _).length
    have hp := List.length_eq_length_filter_add (l := s.rows)
      (staleAt (now - (minutes : Int) * 60000))
    omega
  · intro minutes now s r hr hu
    rw [hmem]
    rintro ⟨-, h2⟩
    have := h2 _ hu
    omega
  · intro minutes now s r hr hu
    rw [hmem]
    refine ⟨hr, ?_⟩
    intro u hu2
    rw [hu] at hu2
    have h3 := Option.some.inj hu2
    omega

/-- C3: when one adapter settles as a failure and the other yields a
non-empty list of records, the refresh cycle completes and hands exactly
those records to upsertMarkets, followed by the stale eviction — the
failing side contributes nothing and aborts nothing. -/
theorem refreshAllMarkets_partial_tolerance (e1 e2 : String) (pU kU : UpstreamResult)
    (tW tE : Int) (s : Store) :
    (fetchKalshi kU ≠ [] →
      refreshAllMarkets (.netFail e1) kU tW tE s =
        (deleteStaleMarkets STALE_MARKET_THRESHOLD_MINUTES tE
          (upsertMarkets tW (fetchKalshi kU) s)).1) ∧
    (fetchPolymarket pU ≠ [] →
      refreshAllMarkets pU (.netFail e2) tW tE s =
        (deleteStaleMarkets STALE_MARKET_THRESHOLD_MINUTES tE
          (upsertMarkets tW (fetchPolymarket pU) s)).1) := by
  constructor
  · intro hne
    show (if 0 < (fetchPolymarket (.netFail e1) ++ fetchKalshi kU).length then _ else _) = _
    have h0 : fetchPolymarket (.netFail e1) = [] := rfl
    rw [h0, List.nil_append]
    rw [if_pos (by cases hk : fetchKalshi kU with
      | nil => exact absurd hk hne
      | cons a l => simp [hk])]
  · intro hne
    show (if 0 < (fetchPolymarket pU ++ fetchKalshi (.netFail e2)).length then _ else _) = _
    have h0 : fetchKalshi (.netFail e2) = [] := rfl
    rw [h0, List.append_nil]
    rw [if_pos (by cases hk : fetchPolymarket pU with
      | nil => exact absurd hk hne
      | cons a l => simp [hk])]

/-- C7: for every failed call (network error or timeout), every non-2xx
status, every undecodable body and every body of the wrong shape (not an
array for Polymarket, no usable listings field for Kalshi), both fetch
functions return the empty list; being total functions of the upstream
outcome, they propagate no exception to their caller. -/
theorem adapters_fail_empty :
    (∀ m, fetchPolymarket (.netFail m) = []) ∧
    (∀ m, fetchKalshi (.netFail m) = []) ∧
    (∀ st body, respOk st = false → fetchPolymarket (.resp st body) = []) ∧
    (∀ st body, respOk st = false → fetchKalshi (.resp st body) = []) ∧
    (∀ st m, fetchPolymarket (.resp st (.error m)) = []) ∧
    (∀ st m, fetchKalshi (.resp st (.error m)) = []) ∧
    (∀ st v, (∀ xs, v ≠ JSVal.arr xs) → fetchPolymarket (.resp st (.ok v)) = []) ∧
    (∀ st v, v.getField "markets" = .undefined → fetchKalshi (.resp st (.ok v)) = []) := by
  refine ⟨fun m => rfl, fun m => rfl, ?_, ?_, ?_, ?_, ?_, ?_⟩
  · intro st body h
    simp [fetchPolymarket, h]
  · intro st body h
    simp [fetchKalshi, h]
  · intro st m
    simp [fetchPolymarket]
  · intro st m
    simp [fetchKalshi]
  · intro st v hv
    simp only [fetchPolymarket]
    split
    · rfl
    · cases v with
      | arr xs => exact absurd rfl (hv xs)
      | null => rfl
      | undefined => rfl
      | bool b => rfl
      | num n => rfl
      | str s => rfl
      | obj fields => rfl
  · intro st v hv
    simp only [fetchKalshi]
    split
    · rfl
    · show ((kalshiEntries v).filter _).map _ = []
      have h1 : kalshiEntries v = [] := by
        simp [kalshiEntries, hv, JSVal.jsOr, JSVal.truthy]
      rw [h1]
      rfl

/-! ## Helper lemmas: provenance of adapter outputs -/

theorem mem_fetchPolymarket_arr (st : Nat) (xs : List JSVal) (r : InsertMarket)
    (h : r ∈ fetchPolymarket (.resp st (.ok (.arr xs)))) :
    ∃ m ∈ xs, (m.getField "active").truthy = true ∧ (m.getField "closed").truthy = false ∧
      (JSVal.jsOr (m.getField "id") (m.getField "ticker")).truthy = true ∧
      r = polyToRecord m := by
  by_cases hok : respOk st = true
  · simp only [fetchPolymarket, hok, Bool.true_eq_false, if_false] at h
    obtain ⟨m, hm, hr⟩ := List.mem_map.mp h
    have h2 := List.mem_filter.mp hm
    have h3 := List.mem_filter.mp h2.1
    have h4 : ((m.getField "active").truthy && !(m.getField "closed").truthy) = true := h3.2
    rw [Bool.and_eq_true, Bool.not_eq_true'] at h4
    exact ⟨m, h3.1, h4.1, h4.2, by simpa using h2.2, hr.symm⟩
  · have hf : respOk st = false := by simpa using hok
    simp [fetchPolymarket, hf] at h

theorem mem_fetchPolymarket (u : UpstreamResult) (r : InsertMarket)
    (h : r ∈ fetchPolymarket u) : ∃ m, r = polyToRecord m := by
  cases u with
  | netFail m => simp [fetchPolymarket] at h
  | resp st body =>
    by_cases hok : respOk st = true
    · cases body with
      | error m => simp [fetchPolymarket, hok] at h
      | ok data =>
        cases data with
        | arr xs =>
          obtain ⟨m, _, _, _, _, hr⟩ := mem_fetchPolymarket_arr st xs r h
          exact ⟨m, hr⟩
        | null => simp [fetchPolymarket, hok] at h
        | undefined => simp [fetchPolymarket, hok] at h
        | bool b => simp [fetchPolymarket, hok] at h
        | num n => simp [fetchPolymarket, hok] at h
        | str s => simp [fetchPolymarket, hok] at h
        | obj fields => simp [fetchPolymarket, hok] at h
    · have hf : respOk st = false := by simpa using hok
      simp [fetchPolymarket, hf] at h

theorem mem_fetchKalshi_ok (st : Nat) (v : JSVal) (r : InsertMarket)
    (h : r ∈ fetchKalshi (.resp st (.ok v))) :
    ∃ m ∈ kalshiEntries v, (m.getField "ticker").truthy = true ∧ r = kalshiToRecord m := by
  by_cases hok : respOk st = true
  · simp only [fetchKalshi, hok, Bool.true_eq_false, if_false] at h
    obtain ⟨m, hm, hr⟩ := List.mem_map.mp h
    have h2 := List.mem_filter.mp hm
    exact ⟨m, h2.1, by simpa using h2.2, hr.symm⟩
  · have hf : respOk st = false := by simpa using hok
    simp [fetchKalshi, hf] at h

theorem mem_fetchKalshi (u : UpstreamResult) (r : InsertMarket)
    (h : r ∈ fetchKalshi u) : ∃ m, r = kalshiToRecord m := by
  cases u with
  | netFail m => simp [fetchKalshi] at h
  | resp st body =>
    by_cases hok : respOk st = true
    · cases body with
      | error m => simp [fetchKalshi, hok] at h
      | ok data =>
        obtain ⟨m, _, _, hr⟩ := mem_fetchKalshi_ok st data r h
        exact ⟨m, hr⟩
    · have hf : respOk st = false := by simpa using hok
      simp [fetchKalshi, hf] at h

/-- C8 counterexample: fetchKalshi applies no client-side status filter —
an entry whose own status field says settled (not open) is emitted as a
record, as long as it has a truthy ticker. -/
theorem fetchKalshi_emits_settled_entry :
    fetchKalshi (.resp 200 (.ok (.obj [("markets", .arr [kalshiSettledEntry])]))) =
      [kalshiToRecord kalshiSettledEntry] ∧
    kalshiSettledEntry.getField "status" = .str "settled" ∧
    kalshiToRecord kalshiSettledEntry =
      { externalId := "T", platform := "kalshi", question := "T",
        url := "https://kalshi.com/markets/T", totalVolume := "0",
        volume24h := some "0", startDate := none, endDate := none,
        resolutionRules := some "" } := by
  refine ⟨?_, rfl, by decide⟩
  show ((kalshiEntries _).filter _).map _ = _
  rw [show kalshiEntries (.obj [("markets", .arr [kalshiSettledEntry])]) =
    [kalshiSettledEntry] from rfl]
  rfl

/-- C8 amended: every record emitted by fetchPolymarket comes from a
payload entry with truthy active and non-truthy closed (and a usable id);
fetchKalshi requests only open markets in its query string but applies no
client-side status filter — every record it emits comes from an entry of
the listings field with a truthy ticker, whatever its status field says. -/
theorem adapters_entry_provenance :
    (∀ st xs r, r ∈ fetchPolymarket (.resp st (.ok (.arr xs))) →
      ∃ m ∈ xs, (m.getField "active").truthy = true ∧
        (m.getField "closed").truthy = false ∧ r = polyToRecord m) ∧
    (∀ st v r, r ∈ fetchKalshi (.resp st (.ok v)) →
      ∃ m ∈ kalshiEntries v, (m.getField "ticker").truthy = true ∧
        r = kalshiToRecord m) := by
  constructor
  · intro st xs r h
    obtain ⟨m, hm, h1, h2, h3, hr⟩ := mem_fetchPolymarket_arr st xs r h
    exact ⟨m, hm, h1, h2, hr⟩
  · intro st v r h
    exact mem_fetchKalshi_ok st v r h

/-- C10: every record either adapter produces has a non-null volume24h:
it is always some decimal string, and when the 24-hour volume fields are
all absent from the payload entry it is the string 0. -/
theorem volume24h_always_present :
    (∀ u r, r ∈ fetchPolymarket u → ∃ sv, r.volume24h = some sv) ∧
    (∀ u r, r ∈ fetchKalshi u → ∃ sv, r.volume24h = some sv) ∧
    (∀ m : JSVal, m.getField "volume24hr" = .undefined → m.getField "volume_24h" = .undefined →
      m.getField "24hr_volume" = .undefined → (polyToRecord m).volume24h = some "0") ∧
    (∀ m : JSVal, m.getField "recent_volume" = .undefined →
      m.getField "last_24h_volume" = .undefined → m.getField "volume_24h" = .undefined →
      (kalshiToRecord m).volume24h = some "0") := by
  refine ⟨?_, ?_, ?_, ?_⟩
  · intro u r h
    obtain ⟨m, hr⟩ := mem_fetchPolymarket u r h
    exact ⟨_, by rw [hr]; rfl⟩
  · intro u r h
    obtain ⟨m, hr⟩ := mem_fetchKalshi u r h
    exact ⟨_, by rw [hr]; rfl⟩
  · intro m h1 h2 h3
    show some _ = some "0"
    rw [h1, h2, h3]
    rfl
  · intro m h1 h2 h3
    show some _ = some "0"
    rw [h1, h2, h3]
    rfl

/-- C4: safeParseNumber returns 0 for null, undefined, NaN and the
infinities, and otherwise the parsed number, sign preserved; in
particular an adapter fed volume abc, volume null, volume -5 produces
totalVolume 0, 0 and -5 respectively. -/
theorem safeParseNumber_spec :
    safeParseNumber .null = 0 ∧
    safeParseNumber .undefined = 0 ∧
    safeParseNumber (.num .nan) = 0 ∧
    (∀ b, safeParseNumber (.num (.inf b)) = 0) ∧
    (∀ q, safeParseNumber (.num (.finite q)) = q) ∧
    (∀ s q, parseFloat s = .finite q → safeParseNumber (.str s) = q) ∧
    (∀ s, parseFloat s = .nan → safeParseNumber (.str s) = 0) ∧
    (polyToRecord (.obj [("volume", .str "abc")])).totalVolume = "0" ∧
    (polyToRecord (.obj [("volume", .null)])).totalVolume = "0" ∧
    (polyToRecord (.obj [("volume", .num (.finite (-5)))])).totalVolume = "-5" ∧
    (kalshiToRecord (.obj [("ticker", .str "T"), ("volume", .str "abc")])).totalVolume = "0" ∧
    (kalshiToRecord (.obj [("ticker", .str "T"),
      ("volume", .num (.finite (-5)))])).totalVolume = "-5" := by
  refine ⟨rfl, rfl, rfl, fun b => by cases b <;> rfl, fun q => rfl, ?_, ?_,
    by decide, by decide, by decide, by decide, by decide⟩
  · intro s q h
    simp [safeParseNumber, h]
  · intro s h
    simp [safeParseNumber, h]

/-! ## Helper lemmas: every valid parsed date is a bounded timestamp -/

theorem digitsToNat_fold_lt (ds : List Char) (h : ds.all Char.isDigit = true) :
    ∀ acc, List.foldl (fun acc c => acc * 10 + (c.toNat - 48)) acc ds <
      (acc + 1) * 10 ^ ds.length := by
  induction ds with
  | nil => intro acc; simp
  | cons c cs ih =>
    rw [List.all_cons, Bool.and_eq_true] at h
    intro acc
    have hc : c.toNat ≤ 57 := by
      have h1 := h.1
      simp [Char.isDigit] at h1
      exact h1.2
    have step : List.foldl (fun acc c => acc * 10 + (c.toNat - 48))
        (acc * 10 + (c.toNat - 48)) cs < (acc * 10 + (c.toNat - 48) + 1) * 10 ^ cs.length :=
      ih h.2 _
    have hle : (acc * 10 + (c.toNat - 48) + 1) * 10 ^ cs.length ≤
        (acc + 1) * 10 ^ (cs.length + 1) := by
      have hd : c.toNat - 48 ≤ 9 := by omega
      have : acc * 10 + (c.toNat - 48) + 1 ≤ (acc + 1) * 10 := by omega
      calc (acc * 10 + (c.toNat - 48) + 1) * 10 ^ cs.length
          ≤ ((acc + 1) * 10) * 10 ^ cs.length := Nat.mul_le_mul_right _ this
        _ = (acc + 1) * 10 ^ (cs.length + 1) := by ring
    exact lt_of_lt_of_le step (by simpa using hle)

theorem digitsToNat_lt (ds : List Char) (h : ds.all Char.isDigit = true) :
    digitsToNat ds < 10 ^ ds.length := by
  have := digitsToNat_fold_lt ds h 0
  simpa [digitsToNat] using this

theorem takeDigits_lt (n : Nat) (cs : List Char) (v : Nat) (rest : List Char)
    (h : takeDigits n cs = some (v, rest)) : v < 10 ^ n := by
  simp only [takeDigits] at h
  split at h
  · rename_i hcond
    have hv : v = digitsToNat (cs.take n) := by
      have := Option.some.inj h
      exact (congrArg Prod.fst this).symm
    rw [hv]
    have := digitsToNat_lt (cs.take n) hcond.2
    rwa [hcond.1] at this
  · exact absurd h (by simp)

theorem parseSecondsPart_bound (cs : List Char) (ss ms : Nat) (rest : List Char)
    (h : parseSecondsPart cs = some (ss, ms, rest)) : ss ≤ 59 ∧ ms ≤ 999 := by
  unfold parseSecondsPart at h
  split at h
  · split at h
    · exact absurd h (by simp)
    · split at h
      · exact absurd h (by simp)
      · rename_i hle
        split at h
        · rename_i cs2 hr1
          simp only [Option.ite_none_left_eq_some, Option.some.injEq, Prod.mk.injEq] at h
          obtain ⟨hcond, hss, hms, hrest⟩ := h
          rw [not_or] at hcond
          have hlen : (cs2.takeWhile Char.isDigit).length ≤ 3 := by omega
          have hdig : (cs2.takeWhile Char.isDigit).all Char.isDigit = true :=
            List.all_takeWhile
          have hval := digitsToNat_lt (cs2.takeWhile Char.isDigit) hdig
          constructor
          · omega
          · rw [← hms]
            have hprod : digitsToNat (cs2.takeWhile Char.isDigit) *
                10 ^ (3 - (cs2.takeWhile Char.isDigit).length) <
                10 ^ (cs2.takeWhile Char.isDigit).length *
                10 ^ (3 - (cs2.takeWhile Char.isDigit).length) :=
              mul_lt_mul_of_pos_right hval (pow_pos (by norm_num) _)
            rw [← pow_add] at hprod
            have h3 : (cs2.takeWhile Char.isDigit).length +
                (3 - (cs2.takeWhile Char.isDigit).length) = 3 := by omega
            rw [h3] at hprod
            omega
        · simp only [Option.some.injEq, Prod.mk.injEq] at h
          omega
  · simp only [Option.some.injEq, Prod.mk.injEq] at h
    omega

theorem parseZoneOffset_bound (neg : Bool) (cs : List Char) (off : Int) (rest : List Char)
    (h : parseZoneOffset neg cs = some (off, rest)) : off.natAbs ≤ 86340000 := by
  unfold parseZoneOffset at h
  split at h
  · exact absurd h (by simp)
  · split at h
    · exact absurd h (by simp)
    · split at h
      · exact absurd h (by simp)
      · rename_i hh r1 hr1 r2 hr2 m2 r3 hr3
        split at h
        · exact absurd h (by simp)
        · rename_i hcond
          rw [not_or] at hcond
          simp only [Option.some.injEq, Prod.mk.injEq] at h
          obtain ⟨hoff, hrest⟩ := h
          rw [← hoff]
          cases neg <;> simp <;> omega
  
theorem parseZone_bound (cs : List Char) (off : Int) (rest : List Char)
    (h : parseZone cs = some (off, rest)) : off.natAbs ≤ 86340000 := by
  unfold parseZone at h
  split at h
  · simp only [Option.some.injEq, Prod.mk.injEq] at h
    rw [← h.1]
    simp
  · simp only [Option.some.injEq, Prod.mk.injEq] at h
    rw [← h.1]
    simp
  · exact parseZoneOffset_bound false _ off rest h
  · exact parseZoneOffset_bound true _ off rest h
  · exact absurd h (by simp)

theorem daysFromCivil_bound (y : Int) (m d : Nat) (hy0 : 0 ≤ y) (hy : y ≤ 9999)
    (hm : m ≤ 12) (hd : d ≤ 31) : (daysFromCivil y m d).natAbs ≤ 4000000 := by
  simp only [daysFromCivil]
  split
  · split <;> omega
  · omega

theorem daysInMonth_le (y : Int) (m : Nat) : daysInMonth y m ≤ 31 := by
  unfold daysInMonth
  split
  · split <;> omega
  · split <;> omega

theorem isoParse_bound (s : String) (t : Int) (h : isoParse s = some t) :
    t.natAbs ≤ 8640000000000000 := by
  unfold isoParse at h
  split at h
  · exact absurd h (by simp)
  · rename_i y r1 hy
    split at h
    · exact absurd h (by simp)
    · split at h
      · exact absurd h (by simp)
      · rename_i mo r3 hmo
        split at h
        · exact absurd h (by simp)
        · split at h
          · exact absurd h (by simp)
          · rename_i d r5 hd
            split at h
            · exact absurd h (by simp)
            · rename_i hvalid
              rw [not_or, not_or, not_or] at hvalid
              have hy4 : y < 10000 := by
                have := takeDigits_lt 4 s.data y r1 hy
                simpa using this
              have hdm : daysInMonth (y : Int) mo ≤ 31 := daysInMonth_le _ _
              have hdays : (daysFromCivil (y : Int) mo d).natAbs ≤ 4000000 :=
                daysFromCivil_bound (y : Int) mo d (by omega) (by omega)
                  (by omega) (by omega)
              split at h
              · have ht := Option.some.inj h
                omega
              · split at h
                · exact absurd h (by simp)
                · split at h
                  · exact absurd h (by simp)
                  · split at h
                    · exact absurd h (by simp)
                    · rename_i mi r9 hmi
                      split at h
                      · exact absurd h (by simp)
                      · rename_i htime
                        rw [not_or] at htime
                        split at h
                        · exact absurd h (by simp)
                        · rename_i ss ms r10 hsec
                          split at h
                          · exact absurd h (by simp)
                          · rename_i off r11 hzone
                            have hss := parseSecondsPart_bound r9 ss ms r10 hsec
                            have hoff := parseZone_bound r10 off r11 hzone
                            split at h
                            · have ht := Option.some.inj h
                              omega
                            · exact absurd h (by simp)
              · exact absurd h (by simp)

theorem jsNewDate_bound (v : JSVal) (t : Int) (h : jsNewDate v = some t) :
    t.natAbs ≤ 8640000000000000 := by
  cases v with
  | num n =>
    cases n with
    | finite q =>
      simp only [jsNewDate] at h
      split at h
      · rename_i hb
        have := Option.some.inj h
        omega
      · exact absurd h (by simp)
    | nan => simp [jsNewDate] at h
    | inf b => simp [jsNewDate] at h
  | str s2 => exact isoParse_bound s2 t h
  | bool b =>
    simp only [jsNewDate] at h
    have := Option.some.inj h
    cases b <;> simp_all <;> omega
  | null =>
    simp only [jsNewDate] at h
    have := Option.some.inj h
    omega
  | undefined => simp [jsNewDate] at h
  | arr xs => exact isoParse_bound _ t h
  | obj fields => simp [jsNewDate] at h

theorem safeParseDate_bound (v : JSVal) (t : Int) (h : safeParseDate v = some t) :
    t.natAbs ≤ 8640000000000000 := by
  unfold safeParseDate at h
  split at h
  · exact absurd h (by simp)
  · exact jsNewDate_bound v t h

/-- C9: safeParseDate is total and never yields an out-of-range Date:
falsy inputs (absent fields included) give null, a nonempty string goes
through the date parser (null when unparseable, its timestamp otherwise),
and every timestamp it produces is within the valid Date range of
8.64e15 milliseconds around the epoch — hence the startDate and endDate
of every adapter-produced record are null or valid timestamps. -/
theorem safeParseDate_spec :
    safeParseDate .undefined = none ∧
    safeParseDate .null = none ∧
    (∀ v, JSVal.truthy v = false → safeParseDate v = none) ∧
    (∀ s, s ≠ "" → safeParseDate (.str s) = isoParse s) ∧
    (∀ v t, safeParseDate v = some t → t.natAbs ≤ 8640000000000000) ∧
    (∀ u r, r ∈ fetchPolymarket u →
      (∀ t, r.startDate = some t → t.natAbs ≤ 8640000000000000) ∧
      (∀ t, r.endDate = some t → t.natAbs ≤ 8640000000000000)) ∧
    (∀ u r, r ∈ fetchKalshi u →
      (∀ t, r.startDate = some t → t.natAbs ≤ 8640000000000000) ∧
      (∀ t, r.endDate = some t → t.natAbs ≤ 8640000000000000)) := by
  refine ⟨rfl, rfl, ?_, ?_, safeParseDate_bound, ?_, ?_⟩
  · intro v hv
    simp [safeParseDate, hv]
  · intro s hs
    simp [safeParseDate, JSVal.truthy, hs]
    rfl
  · intro u r h
    obtain ⟨m, rfl⟩ := mem_fetchPolymarket u r h
    exact ⟨fun t ht => safeParseDate_bound _ t ht, fun t ht => safeParseDate_bound _ t ht⟩
  · intro u r h
    obtain ⟨m, rfl⟩ := mem_fetchKalshi u r h
    exact ⟨fun t ht => safeParseDate_bound _ t ht, fun t ht => safeParseDate_bound _ t ht⟩

/-! ## Witnesses: each claim theorem applied at a concrete input -/

/-- C2 witness: one concrete double upsert into the empty store. -/
theorem upsertMarkets_idempotent_witness :
    WF emptyStore ∧
    ((upsertMarkets 9 [demoRec] (upsertMarkets 3 [demoRec] emptyStore)).rows.filter
      (fun r => r.externalId = demoRec.externalId)).length = 1 :=
  ⟨by decide, (upsertMarkets_idempotent demoRec 3 9 emptyStore (by decide)).1⟩

/-- C3 witness: Polymarket fails, Kalshi returns one record. -/
theorem refreshAllMarkets_partial_tolerance_witness :
    fetchKalshi kalshiOkUpstream ≠ [] ∧
    refreshAllMarkets (.netFail "boom") kalshiOkUpstream 0 0 emptyStore =
      (deleteStaleMarkets STALE_MARKET_THRESHOLD_MINUTES 0
        (upsertMarkets 0 (fetchKalshi kalshiOkUpstream) emptyStore)).1 :=
  ⟨by decide, (refreshAllMarkets_partial_tolerance "boom" "x" (.netFail "x")
    kalshiOkUpstream 0 0 emptyStore).1 (by decide)⟩

/-- C4 witness: a concrete parsable negative decimal string. -/
theorem safeParseNumber_spec_witness :
    parseFloat "-2.5" = .finite (mkRat (-5) 2) ∧
    safeParseNumber (.str "-2.5") = mkRat (-5) 2 :=
  ⟨by decide, safeParseNumber_spec.2.2.2.2.2.1 "-2.5" (mkRat (-5) 2) (by decide)⟩

/-- C5 witness: a batch that touches no existing row leaves the row in
place. -/
theorem upsertMarkets_frame_witness :
    WF demoStoreOne ∧ demoRowNoEnd ∈ demoStoreOne.rows ∧
    demoRowNoEnd ∈ (upsertMarkets 5 [demoRec] demoStoreOne).rows :=
  ⟨by decide, by decide,
    (upsertMarkets_frame 5 [demoRec] demoStoreOne (by decide) demoRowNoEnd
      (by decide)).1 (by decide)⟩

/-- C6 witness: a row eleven minutes old is removed under a ten-minute
threshold at time zero. -/
theorem deleteStaleMarkets_correct_witness :
    demoRowStale ∈ demoStaleStore.rows ∧
    demoRowStale.lastUpdated = some (0 - ((10 : Nat) : Int) * 60000 - 60000) ∧
    demoRowStale ∉ (deleteStaleMarkets 10 0 demoStaleStore).1.rows :=
  ⟨by decide, by decide,
    deleteStaleMarkets_correct.2.2.1 10 0 demoStaleStore demoRowStale
      (by decide) (by decide)⟩

/-- C7 witness: a 500 status yields the empty list. -/
theorem adapters_fail_empty_witness :
    respOk 500 = false ∧ fetchPolymarket (.resp 500 (.ok (.arr []))) = [] :=
  ⟨by decide, adapters_fail_empty.2.2.1 500 (.ok (.arr [])) (by decide)⟩

/-- C8 witness: the record built from an active, open Polymarket entry is
traced back to that entry. -/
theorem adapters_entry_provenance_witness :
    polyToRecord polyActiveEntry ∈
      fetchPolymarket (.resp 200 (.ok (.arr [polyActiveEntry]))) ∧
    ∃ m ∈ [polyActiveEntry], (m.getField "active").truthy = true ∧
      (m.getField "closed").truthy = false ∧
      polyToRecord polyActiveEntry = polyToRecord m :=
  ⟨by decide, adapters_entry_provenance.1 200 [polyActiveEntry]
    (polyToRecord polyActiveEntry) (by decide)⟩

/-- C9 witness: a concrete parsable date string. -/
theorem safeParseDate_spec_witness :
    ("2020-01-01" ≠ "") ∧
    safeParseDate (.str "2020-01-01") = isoParse "2020-01-01" ∧
    safeParseDate (.str "2020-01-01") = some 1577836800000 ∧
    ((1577836800000 : Int).natAbs ≤ 8640000000000000) :=
  ⟨by decide, safeParseDate_spec.2.2.2.1 "2020-01-01" (by decide), by decide,
    safeParseDate_spec.2.2.2.2.1 (.str "2020-01-01") 1577836800000 (by decide)⟩

/-- C10 witness: the record of a concrete Kalshi entry has a non-null
volume24h. -/
theorem volume24h_always_present_witness :
    kalshiToRecord (.obj [("ticker", .str "T")]) ∈ fetchKalshi kalshiOkUpstream ∧
    ∃ sv, (kalshiToRecord (.obj [("ticker", .str "T")])).volume24h = some sv :=
  ⟨by decide, volume24h_always_present.2.1 kalshiOkUpstream
    (kalshiToRecord (.obj [("ticker", .str "T")])) (by decide)⟩
